import Mathlib

/-!
Shallow embedding of `pkg/formatter/formatter.go` from the
`simple-logrus-formatter` repository, together with proofs about the
rendering function `Format` and its helpers.

Modelling conventions:
* Go strings are Lean `String`s (lists of code points); for the ASCII level
  names involved here, Go's byte indexing and byte-wise lexicographic order
  coincide with code-point indexing and order.
* `logrus.Level` is a `uint32` used only in equality tests, modelled as `Nat`.
* A Go map `logrus.Fields` is modelled as an association list holding one
  iteration snapshot; Go guarantees the keys are unique.
* `time.Time` is opaque to the formatter except for its `Format` method,
  modelled as a function from layout strings to rendered strings.
* The slice expression `level[:4]` panics in Go when the string is shorter
  than 4 bytes; that partiality is modelled with `Option`.
-/

namespace LogrusFmt

/-- A field value (`interface{}` in Go); the formatter only ever uses its
`%v` default textual representation, which is the `fmtV` component here. -/
structure GoValue where
  fmtV : String
deriving DecidableEq

/-- Abstraction of Go `time.Time`: the formatter only calls `Format`. -/
structure GoTime where
  format : String → String

/-- `runtime.Frame` data used by `writeCaller`. -/
structure GoCaller where
  file : String
  line : Int
  function : String

/-- A `logrus.Entry` restricted to the components the formatter reads.
`caller = some c` stands for `entry.HasCaller()` being true with frame `c`. -/
structure Entry where
  time : GoTime
  level : Nat
  message : String
  data : List (String × GoValue)
  caller : Option GoCaller

/-- The `Formatter` options struct. `fieldsOrder = none` models a nil
`FieldsOrder` slice; `some l` models a non-nil slice with contents `l`. -/
structure Formatter where
  fieldsOrder : Option (List String)
  timestampFormat : String
  hideKeys : Bool
  noColors : Bool
  disableTrimMessages : Bool

/-- logrus level constants (`logrus.PanicLevel = 0`, …, `logrus.TraceLevel = 6`). -/
def panicLevel : Nat := 0
def fatalLevel : Nat := 1
def errorLevel : Nat := 2
def warnLevel : Nat := 3
def infoLevel : Nat := 4
def debugLevel : Nat := 5
def traceLevel : Nat := 6

/-- `logrus.Level.String()`: `MarshalText` for the seven known levels,
`"unknown"` for any other value. -/
def levelString : Nat → String
  | 0 => "panic"
  | 1 => "fatal"
  | 2 => "error"
  | 3 => "warning"
  | 4 => "info"
  | 5 => "debug"
  | 6 => "trace"
  | _ => "unknown"

/-- `strings.ToUpper`, restricted to the per-rune mapping (the inputs in this
program are ASCII level names, where `Char.toUpper` agrees with Go). -/
def goToUpper (s : String) : String :=
  ⟨s.data.map Char.toUpper⟩

/-- `unicode.IsSpace`: Unicode White_Space code points. -/
def goIsSpace (c : Char) : Bool :=
  c.toNat = 0x09 || c.toNat = 0x0a || c.toNat = 0x0b || c.toNat = 0x0c ||
  c.toNat = 0x0d || c.toNat = 0x20 || c.toNat = 0x85 || c.toNat = 0xa0 ||
  c.toNat = 0x1680 || (0x2000 ≤ c.toNat && c.toNat ≤ 0x200a) ||
  c.toNat = 0x2028 || c.toNat = 0x2029 || c.toNat = 0x202f ||
  c.toNat = 0x205f || c.toNat = 0x3000

/-- `strings.TrimSpace`: drop leading and trailing White_Space. -/
def trimSpace (s : String) : String :=
  ⟨((s.data.dropWhile goIsSpace).reverse.dropWhile goIsSpace).reverse⟩

/-- Go map lookup `entry.Data[field]` with its `ok` flag folded into `Option`. -/
def lookupF : List (String × GoValue) → String → Option GoValue
  | [], _ => none
  | (k, v) :: rest, key => if key = k then some v else lookupF rest key

/-- `fmt` `%v` applied to `entry.Data[field]`: the value's default textual
representation, or `"<nil>"` when the key is absent (nil interface). -/
def fmtValue : Option GoValue → String
  | some v => v.fmtV
  | none => "<nil>"

/-- Code-point lexicographic `≤` on character lists. On UTF-8 strings this
coincides with Go's byte-wise string order. -/
def charsLe : List Char → List Char → Bool
  | [], _ => true
  | _ :: _, [] => false
  | a :: as, b :: bs =>
    if a < b then true
    else if b < a then false
    else charsLe as bs

/-- Go's `<=` on strings, as a computable comparison. -/
def strLe (a b : String) : Bool := charsLe a.data b.data

/-- `sort.Strings`: sort in Go's byte-wise lexicographic string order. -/
def sortStrings (l : List String) : List String :=
  l.insertionSort (fun a b => strLe a b = true)

/-- `fmt.Fprintf(b, "\x1b[%dm", n)`. -/
def ansiEscape (n : Nat) : String :=
  "\x1b[" ++ Nat.repr n ++ "m"

/-- ANSI SGR color constants from the source. -/
def colorNone : Nat := 0
def colorBlack : Nat := 30
def colorRed : Nat := 31
def colorGreen : Nat := 32
def colorYellow : Nat := 33
def colorBlue : Nat := 34
def colorMagenta : Nat := 35
def colorCyan : Nat := 36
def colorGray : Nat := 37

/-- `getColorByLevel`. -/
def getColorByLevel (level : Nat) : Nat :=
  if level = debugLevel ∨ level = traceLevel then colorGray
  else if level = warnLevel then colorYellow
  else if level = errorLevel ∨ level = fatalLevel ∨ level = panicLevel then colorRed
  else colorCyan

/-- `time.TimeOnly`. -/
def timeTimeOnly : String := "15:04:05"

/-- `fmt` `%d` applied to a Go `int`. -/
def intRepr (i : Int) : String :=
  if i < 0 then "-" ++ Nat.repr (-i).toNat else Nat.repr i.toNat

namespace Formatter

/-- `writeField`: one `[value]` or `[key:value]` segment plus a space. -/
def writeField (f : Formatter) (e : Entry) (field : String) : String :=
  (if f.hideKeys then "[" ++ fmtValue (lookupF e.data field) ++ "]"
   else "[" ++ field ++ ":" ++ fmtValue (lookupF e.data field) ++ "]") ++ " "

/-- A `for _, field := range fields { f.writeField(b, entry, field) }` loop. -/
def renderFields (f : Formatter) (e : Entry) : List String → String
  | [] => ""
  | field :: rest => f.writeField e field ++ f.renderFields e rest

/-- `writeFields`: collect the map's keys, sort them, render each.
(The snapshot order of `e.data` feeds into `sortStrings`, which erases it.) -/
def writeFields (f : Formatter) (e : Entry) : String :=
  if e.data.length ≠ 0 then
    f.renderFields e (sortStrings (e.data.map Prod.fst))
  else ""

/-- The first loop of `writeOrderedFields`, with its mutable state
(`foundFieldsMap`, `length`, the output buffer) passed explicitly.
`length` is a Go `int` and may go negative. -/
def orderedLoop (f : Formatter) (e : Entry) :
    List String → List String × Int × String → List String × Int × String
  | [], acc => acc
  | field :: rest, (found, length, out) =>
    if (lookupF e.data field).isSome then
      f.orderedLoop e rest (field :: found, length - 1, out ++ f.writeField e field)
    else
      f.orderedLoop e rest (found, length, out)

/-- `writeOrderedFields`: render the configured names that are present, then,
if the decremented `length` is still positive, the not-found keys sorted. -/
def writeOrderedFields (f : Formatter) (e : Entry) : String :=
  match f.orderedLoop e (f.fieldsOrder.getD []) ([], (e.data.length : Int), "") with
  | (found, length, out) =>
    if 0 < length then
      out ++ f.renderFields e
        (sortStrings ((e.data.map Prod.fst).filter (fun field => !found.contains field)))
    else out

/-- `writeCaller`: ` (<file>:<line> <function>)` when a caller frame is set. -/
def writeCaller (e : Entry) : String :=
  match e.caller with
  | some c => " (" ++ c.file ++ ":" ++ intRepr c.line ++ " " ++ c.function ++ ")"
  | none => ""

/-- The timestamp layout: `TimestampFormat`, defaulting to `time.TimeOnly`. -/
def resolveTimestampFormat (f : Formatter) : String :=
  if f.timestampFormat = "" then timeTimeOnly else f.timestampFormat

/-- `level[:4]` on the uppercased level name: Go panics when the string has
fewer than 4 bytes, modelled as `none`. -/
def sliceTo4 (s : String) : Option String :=
  if 4 ≤ s.data.length then some ⟨s.data.take 4⟩ else none

/-- The message written by `Format`: trimmed unless `DisableTrimMessages`. -/
def messageSegment (f : Formatter) (e : Entry) : String :=
  if f.disableTrimMessages then e.message else trimSpace e.message

/-- Everything `Format` writes before the message: timestamp bracket, color
escape (unless `NoColors`), truncated level tag, fields, reset escape. -/
def formatHead (f : Formatter) (e : Entry) : Option String :=
  match sliceTo4 (goToUpper (levelString e.level)) with
  | none => none
  | some level4 =>
    some ("[" ++ e.time.format f.resolveTimestampFormat ++ "]"
      ++ (if !f.noColors then ansiEscape (getColorByLevel e.level) else "")
      ++ " [" ++ level4 ++ "]" ++ " "
      ++ (match f.fieldsOrder with
          | none => f.writeFields e
          | some _ => f.writeOrderedFields e)
      ++ (if !f.noColors then ansiEscape colorNone else ""))

/-- `Format`: the outer `Option` models the potential `level[:4]` panic; the
inner `Option String` is the returned `error`, which the source always sets
to nil (`return b.Bytes(), nil`). -/
def Format (f : Formatter) (e : Entry) : Option (String × Option String) :=
  match f.formatHead e with
  | none => none
  | some head => some (head ++ f.messageSegment e ++ writeCaller e ++ "\n", none)

end Formatter

/-- No ESC byte (0x1b) anywhere in the string. -/
abbrev escFree (s : String) : Prop := '\x1b' ∉ s.data

/-- Number of occurrences of `pat` as a contiguous block inside `s`
(count of starting positions). -/
def occs (pat s : List Char) : Nat :=
  (List.range (s.length + 1)).countP (fun i => decide ((s.drop i).take pat.length = pat))

/-- Whether a character list ends with one line feed not preceded by another. -/
def endsWithOneLF (s : List Char) : Bool :=
  s.getLast? == some '\n' && !(s.dropLast.getLast? == some '\n')

/-- The level tag actually placed between brackets: the first four characters
of the uppercased level name. -/
def level4 (lvl : Nat) : String :=
  ⟨(goToUpper (levelString lvl)).data.take 4⟩

/-- A sample `time.Time` whose rendering is `"10:30:00"` for every layout,
used for the concrete records below. -/
def sampleTime : GoTime := ⟨fun _ => "10:30:00"⟩

/-- Concrete inputs shared by several of the claim theorems below. -/
def orderedCfg : Formatter := ⟨some ["id"], "", false, true, false⟩
def hideKeysCfg : Formatter := ⟨some ["id"], "", true, true, false⟩
def twoFieldEntry : Entry :=
  ⟨sampleTime, 4, "x", [("user", ⟨"alice"⟩), ("id", ⟨"42"⟩)], none⟩

/-- The spec's Example 2 record with duplicate-laden order configuration used
for the C1 counterexample. -/
def dupOrderCfg : Formatter := ⟨some ["a", "a"], "", false, true, false⟩
def dupOrderEntry : Entry :=
  ⟨sampleTime, 4, "x", [("a", ⟨"1"⟩), ("b", ⟨"2"⟩)], none⟩

/-- A default-like configuration (colors suppressed) and simple records. -/
def plainCfg : Formatter := ⟨none, "", false, true, false⟩
def colorCfg : Formatter := ⟨none, "", false, false, false⟩
def twoFieldEntryRev : Entry :=
  ⟨sampleTime, 4, "x", [("id", ⟨"42"⟩), ("user", ⟨"alice"⟩)], none⟩
def noTrimCfg : Formatter := ⟨none, "", false, true, true⟩
def plainEntry : Entry := ⟨sampleTime, 4, "starting up", [], none⟩
def helloEntry : Entry := ⟨sampleTime, 4, " hello ", [], none⟩
def lfMsgEntry : Entry := ⟨sampleTime, 4, "\n", [], none⟩
def escMsgEntry : Entry := ⟨sampleTime, 4, "boom\x1b[31m", [], none⟩

namespace Formatter

/-- The payload of `formatHead` (the bytes before the message), spelled out. -/
def headStr (f : Formatter) (e : Entry) : String :=
  "[" ++ e.time.format f.resolveTimestampFormat ++ "]"
    ++ (if !f.noColors then ansiEscape (getColorByLevel e.level) else "")
    ++ " [" ++ level4 e.level ++ "]" ++ " "
    ++ (match f.fieldsOrder with
        | none => f.writeFields e
        | some _ => f.writeOrderedFields e)
    ++ (if !f.noColors then ansiEscape colorNone else "")

end Formatter

/-- Every level name the source can produce has at least four characters once
uppercased (`"info"` is the shortest; unrecognized levels yield `"unknown"`). -/
theorem four_le_levelString (n : Nat) : 4 ≤ (goToUpper (levelString n)).data.length :=
  match n with
  | 0 => by decide
  | 1 => by decide
  | 2 => by decide
  | 3 => by decide
  | 4 => by decide
  | 5 => by decide
  | 6 => by decide
  | _ + 7 => by
    show 4 ≤ (goToUpper "unknown").data.length
    decide

/-- The `level[:4]` slice is in bounds for every level value. -/
theorem sliceTo4_levelString (n : Nat) :
    Formatter.sliceTo4 (goToUpper (levelString n)) = some (level4 n) := by
  rw [Formatter.sliceTo4, if_pos (four_le_levelString n)]
  rfl

/-- `formatHead` always succeeds, with the payload `headStr`. -/
theorem formatHead_eq (f : Formatter) (e : Entry) :
    f.formatHead e = some (f.headStr e) := by
  rw [Formatter.formatHead, sliceTo4_levelString]
  rfl

/-- Structure of `Format`'s result: head, message, caller, newline — paired
with a nil error. -/
theorem format_eq (f : Formatter) (e : Entry) :
    f.Format e = some (f.headStr e ++ f.messageSegment e ++ Formatter.writeCaller e ++ "\n",
      none) := by
  rw [Formatter.Format, formatHead_eq]

/-- A pattern that appears as a contiguous block is counted at least once. -/
theorem occs_pos_of_split (pat s A B : List Char) (h : s = A ++ (pat ++ B)) :
    0 < occs pat s := by
  rw [occs, List.countP_pos_iff]
  refine ⟨A.length, List.mem_range.mpr ?_, ?_⟩
  · subst h; simp only [List.length_append]; omega
  · subst h
    rw [List.drop_left, List.take_left', decide_eq_true_eq]
    rfl

/-- `renderFields` distributes over list append. -/
theorem renderFields_append (f : Formatter) (e : Entry) (l₁ l₂ : List String) :
    f.renderFields e (l₁ ++ l₂) = f.renderFields e l₁ ++ f.renderFields e l₂ := by
  induction l₁ with
  | nil => simp [Formatter.renderFields]
  | cons a rest ih => simp [Formatter.renderFields, ih, String.append_assoc]

/-- A key looks up successfully exactly when it is one of the map's keys. -/
theorem lookupF_isSome_iff (d : List (String × GoValue)) (k : String) :
    (lookupF d k).isSome = true ↔ k ∈ d.map Prod.fst := by
  induction d with
  | nil => simp [lookupF]
  | cons p rest ih =>
    obtain ⟨a, v⟩ := p
    by_cases h : k = a
    · simp [lookupF, h]
    · simp [lookupF, h, ih]

/-- A successful lookup returns one of the map's entries. -/
theorem lookupF_mem {d : List (String × GoValue)} {k : String} {v : GoValue}
    (h : lookupF d k = some v) : (k, v) ∈ d := by
  induction d with
  | nil => simp [lookupF] at h
  | cons p rest ih =>
    obtain ⟨a, w⟩ := p
    by_cases hk : k = a
    · rw [lookupF, if_pos hk] at h
      obtain rfl := Option.some.inj h
      subst hk
      exact List.mem_cons_self ..
    · rw [lookupF, if_neg hk] at h
      exact List.mem_cons_of_mem _ (ih h)

/-- Exact characterization of the first loop of `writeOrderedFields`: it
renders the configured names that look up successfully, in configured order
(duplicates included), pushes them onto `foundFieldsMap`, and decrements
`length` once per rendered occurrence. -/
theorem orderedLoop_spec (f : Formatter) (e : Entry) (ord : List String)
    (found : List String) (len : Int) (out : String) :
    f.orderedLoop e ord (found, len, out) =
      ((ord.filter (fun k => (lookupF e.data k).isSome)).reverse ++ found,
       len - (ord.countP (fun k => (lookupF e.data k).isSome) : Int),
       out ++ f.renderFields e (ord.filter (fun k => (lookupF e.data k).isSome))) := by
  induction ord generalizing found len out with
  | nil => simp [Formatter.orderedLoop, Formatter.renderFields]
  | cons a rest ih =>
    rw [Formatter.orderedLoop]
    by_cases h : (lookupF e.data a).isSome
    · rw [if_pos h, ih]
      refine congrArg₂ _ ?_ (congrArg₂ _ ?_ ?_)
      · simp [List.filter_cons, h]
      · simp [List.countP_cons, h]
        omega
      · simp [List.filter_cons, h, Formatter.renderFields, String.append_assoc]
    · rw [if_neg h, ih]
      refine congrArg₂ _ ?_ (congrArg₂ _ ?_ ?_)
      · simp [List.filter_cons, h]
      · simp [List.countP_cons, h]
      · simp [List.filter_cons, h]

/-- Characterization of `writeOrderedFields` for any configured order list:
first the present configured names (in order, duplicates included), then —
only when the decremented counter stayed positive — the keys that were never
marked found, sorted. -/
theorem writeOrderedFields_eq (f : Formatter) (e : Entry) (ord : List String)
    (ho : f.fieldsOrder = some ord) :
    f.writeOrderedFields e =
      f.renderFields e (ord.filter (fun k => (lookupF e.data k).isSome))
      ++ (if 0 < (e.data.length : Int) - (ord.countP (fun k => (lookupF e.data k).isSome) : Int)
          then
            f.renderFields e (sortStrings ((e.data.map Prod.fst).filter
              (fun k => !(ord.filter (fun k' => (lookupF e.data k').isSome)).contains k)))
          else "") := by
  rw [Formatter.writeOrderedFields, ho]
  simp only [Option.getD_some, orderedLoop_spec, List.append_nil, String.empty_append]
  by_cases hl : 0 < (e.data.length : Int) - (ord.countP (fun k => (lookupF e.data k).isSome) : Int)
  · rw [if_pos hl, if_pos hl]
    have hfil : (e.data.map Prod.fst).filter
        (fun k => !((ord.filter (fun k' => (lookupF e.data k').isSome)).reverse).contains k) =
        (e.data.map Prod.fst).filter
        (fun k => !(ord.filter (fun k' => (lookupF e.data k').isSome)).contains k) := by
      refine List.filter_congr (fun k _ => ?_)
      simp [List.contains, List.elem_eq_mem]
    rw [hfil]
  · rw [if_neg hl, if_neg hl, String.append_empty]

/-- `charsLe` is total. -/
theorem charsLe_total : ∀ xs ys : List Char, charsLe xs ys = true ∨ charsLe ys xs = true
  | [], _ => Or.inl rfl
  | _ :: _, [] => Or.inr rfl
  | x :: xs, y :: ys => by
    rw [charsLe, charsLe]
    by_cases h1 : x < y
    · exact Or.inl (by rw [if_pos h1])
    · by_cases h2 : y < x
      · exact Or.inr (by rw [if_pos h2])
      · rw [if_neg h1, if_neg h2, if_neg h2, if_neg h1]
        exact charsLe_total xs ys

/-- `charsLe` is transitive. -/
theorem charsLe_trans : ∀ xs ys zs : List Char,
    charsLe xs ys = true → charsLe ys zs = true → charsLe xs zs = true
  | [], _, _ => fun _ _ => rfl
  | _ :: _, [], _ => fun h _ => by rw [charsLe] at h; exact absurd h (by decide)
  | _ :: _, _ :: _, [] => fun _ h => by rw [charsLe] at h; exact absurd h (by decide)
  | x :: xs, y :: ys, z :: zs => fun h1 h2 => by
    rw [charsLe] at h1 h2 ⊢
    by_cases hxy : x < y
    · by_cases hyz : y < z
      · rw [if_pos (lt_trans hxy hyz)]
      · by_cases hzy : z < y
        · rw [if_neg hyz, if_pos hzy] at h2
          exact absurd h2 (by decide)
        · have hyz' : y = z := le_antisymm (not_lt.mp hzy) (not_lt.mp hyz)
          rw [if_pos (hyz' ▸ hxy)]
    · by_cases hyx : y < x
      · rw [if_neg hxy, if_pos hyx] at h1
        exact absurd h1 (by decide)
      · have hxy' : x = y := le_antisymm (not_lt.mp hyx) (not_lt.mp hxy)
        subst hxy'
        rw [if_neg hxy, if_neg hyx] at h1
        by_cases hxz : x < z
        · rw [if_pos hxz]
        · by_cases hzx : z < x
          · rw [if_neg hxz, if_pos hzx] at h2
            exact absurd h2 (by decide)
          · rw [if_neg hxz, if_neg hzx] at h2 ⊢
            exact charsLe_trans xs ys zs h1 h2

/-- `charsLe` is antisymmetric. -/
theorem charsLe_antisymm : ∀ xs ys : List Char,
    charsLe xs ys = true → charsLe ys xs = true → xs = ys
  | [], [] => fun _ _ => rfl
  | [], _ :: _ => fun _ h => by rw [charsLe] at h; exact absurd h (by decide)
  | _ :: _, [] => fun h _ => by rw [charsLe] at h; exact absurd h (by decide)
  | x :: xs, y :: ys => fun h1 h2 => by
    rw [charsLe] at h1 h2
    by_cases hxy : x < y
    · rw [if_neg (lt_asymm hxy), if_pos hxy] at h2
      exact absurd h2 (by decide)
    · by_cases hyx : y < x
      · rw [if_neg hxy, if_pos hyx] at h1
        exact absurd h1 (by decide)
      · have hxy' : x = y := le_antisymm (not_lt.mp hyx) (not_lt.mp hxy)
        subst hxy'
        rw [if_neg hxy, if_neg hyx] at h1
        rw [if_neg hxy, if_neg hyx] at h2
        rw [charsLe_antisymm xs ys h1 h2]

instance : IsTotal String (fun a b => strLe a b = true) :=
  ⟨fun a b => charsLe_total a.data b.data⟩

instance : IsTrans String (fun a b => strLe a b = true) :=
  ⟨fun a b c => charsLe_trans a.data b.data c.data⟩

instance : IsAntisymm String (fun a b => strLe a b = true) :=
  ⟨fun a b h1 h2 => String.ext (charsLe_antisymm a.data b.data h1 h2)⟩

/-- `sortStrings` permutes its input. -/
theorem sortStrings_perm (l : List String) : (sortStrings l).Perm l :=
  List.perm_insertionSort _ _

/-- `sortStrings` sorts its input. -/
theorem sortStrings_sorted (l : List String) :
    (sortStrings l).Sorted (fun a b => strLe a b = true) :=
  List.sorted_insertionSort _ _

/-- C1 counterexample: with the non-absent order configuration
`FieldsOrder = ["a","a"]` and record fields `{a:1, b:2}`, the rendered field
segment is `"[a:1] [a:1] "`: field `a` is rendered twice and field `b` (a
field of the record) never appears, so the segment does not contain each
record field exactly once. -/
theorem c1_counterexample :
    dupOrderCfg.writeOrderedFields dupOrderEntry = "[a:1] [a:1] "
    ∧ ("b", GoValue.mk "2") ∈ dupOrderEntry.data
    ∧ occs "b".data (dupOrderCfg.writeOrderedFields dupOrderEntry).data = 0
    ∧ occs "[a:1] ".data (dupOrderCfg.writeOrderedFields dupOrderEntry).data = 2 :=
  ⟨by decide, by decide, by decide, by decide⟩

/-- C1 (amended: additionally assuming the configured `fieldOrder` names are
pairwise distinct — the Go map invariant already makes the record's keys
distinct): the rendered field segment renders exactly the name sequence
consisting of the `fieldOrder` names present in the record, in `fieldOrder`
sequence (absent names skipped without placeholder), followed by the
remaining record fields sorted lexicographically; that sequence is a
permutation of the record's keys, hence contains each field exactly once. -/
theorem c1_field_order_amended (f : Formatter) (e : Entry) (ord : List String)
    (ho : f.fieldsOrder = some ord) (hord : ord.Nodup)
    (hkeys : (e.data.map Prod.fst).Nodup) :
    f.writeOrderedFields e =
      f.renderFields e (ord.filter (fun k => (lookupF e.data k).isSome)
        ++ sortStrings ((e.data.map Prod.fst).filter (fun k => !ord.contains k)))
    ∧ (ord.filter (fun k => (lookupF e.data k).isSome)
        ++ sortStrings ((e.data.map Prod.fst).filter (fun k => !ord.contains k))).Perm
        (e.data.map Prod.fst)
    ∧ ∀ k ∈ e.data.map Prod.fst,
        (ord.filter (fun k' => (lookupF e.data k').isSome)
          ++ sortStrings ((e.data.map Prod.fst).filter
              (fun k' => !ord.contains k'))).count k = 1 := by
  have hpres : ∀ k, ((lookupF e.data k).isSome = true) ↔ k ∈ e.data.map Prod.fst :=
    fun k => lookupF_isSome_iff e.data k
  have hFmem : ∀ k, k ∈ ord.filter (fun k' => (lookupF e.data k').isSome) ↔
      k ∈ e.data.map Prod.fst ∧ k ∈ ord := by
    intro k
    rw [List.mem_filter]
    constructor
    · rintro ⟨h1, h2⟩; exact ⟨(hpres k).1 h2, h1⟩
    · rintro ⟨h1, h2⟩; exact ⟨h2, (hpres k).2 h1⟩
  have hFnd : (ord.filter (fun k' => (lookupF e.data k').isSome)).Nodup := hord.filter _
  have hQnd : ((e.data.map Prod.fst).filter (fun k => ord.contains k)).Nodup := hkeys.filter _
  have hFperm : (ord.filter (fun k' => (lookupF e.data k').isSome)).Perm
      ((e.data.map Prod.fst).filter (fun k => ord.contains k)) := by
    rw [List.perm_ext_iff_of_nodup hFnd hQnd]
    intro k
    rw [hFmem, List.mem_filter]
    simp only [List.contains, List.elem_eq_mem, decide_eq_true_eq]
  have hcount : ord.countP (fun k => (lookupF e.data k).isSome)
      = (ord.filter (fun k' => (lookupF e.data k').isSome)).length := by
    rw [List.countP_eq_length_filter]
  have hsplit : (e.data.map Prod.fst).length =
      ((e.data.map Prod.fst).filter (fun k => ord.contains k)).length
      + ((e.data.map Prod.fst).filter (fun k => !ord.contains k)).length :=
    List.length_eq_length_filter_add _
  have hkl : (e.data.map Prod.fst).length = e.data.length := List.length_map _ _
  have hlen : (e.data.length : Int) - (ord.countP (fun k => (lookupF e.data k).isSome) : Int)
      = (((e.data.map Prod.fst).filter (fun k => !ord.contains k)).length : Int) := by
    rw [hcount, hFperm.length_eq]
    omega
  have hNFeq : (e.data.map Prod.fst).filter
      (fun k => !(ord.filter (fun k' => (lookupF e.data k').isSome)).contains k) =
      (e.data.map Prod.fst).filter (fun k => !ord.contains k) := by
    refine List.filter_congr (fun k hk => ?_)
    have hiff : k ∈ ord.filter (fun k' => (lookupF e.data k').isSome) ↔ k ∈ ord := by
      rw [hFmem]
      exact and_iff_right hk
    simp only [List.contains, List.elem_eq_mem]
    simp only [hiff]
  have hmain : f.writeOrderedFields e =
      f.renderFields e (ord.filter (fun k => (lookupF e.data k).isSome)
        ++ sortStrings ((e.data.map Prod.fst).filter (fun k => !ord.contains k))) := by
    rw [writeOrderedFields_eq f e ord ho, renderFields_append]
    congr 1
    by_cases h0 : (e.data.map Prod.fst).filter (fun k => !ord.contains k) = []
    · rw [if_neg, h0]
      · show ("" : String) = f.renderFields e (sortStrings [])
        rfl
      · rw [hlen, h0]
        simp
    · rw [if_pos, hNFeq]
      rw [hlen]
      have : ((e.data.map Prod.fst).filter (fun k => !ord.contains k)).length ≠ 0 := by
        simpa [List.length_eq_zero] using h0
      omega
  have happend : (ord.filter (fun k => (lookupF e.data k).isSome)
      ++ sortStrings ((e.data.map Prod.fst).filter (fun k => !ord.contains k))).Perm
      (e.data.map Prod.fst) := by
    refine (hFperm.append (sortStrings_perm _)).trans ?_
    exact List.filter_append_perm _ _
  refine ⟨hmain, happend, fun k hk => ?_⟩
  rw [happend.count_eq]
  exact List.count_eq_one_of_mem hkeys hk

/-- C1 witness: the amended theorem applied to the spec's Example 2 inputs
(`fieldOrder = ["id"]`, fields `{user: alice, id: 42}`). -/
theorem c1_field_order_witness :
    orderedCfg.writeOrderedFields twoFieldEntry
      = orderedCfg.renderFields twoFieldEntry ["id", "user"] := by
  have h := (c1_field_order_amended orderedCfg twoFieldEntry ["id"] rfl
    (by decide) (by decide)).1
  rw [h]
  decide

/-- C2 counterexample: for the record with message `"\n"` and trimming
disabled, the output is `"[10:30:00] [INFO] \n\n"`: it ends with two line
feeds, not exactly one, and the message text occurs twice in the output. -/
theorem c2_counterexample :
    noTrimCfg.Format lfMsgEntry = some ("[10:30:00] [INFO] \n\n", none)
    ∧ noTrimCfg.messageSegment lfMsgEntry = "\n"
    ∧ occs "\n".data "[10:30:00] [INFO] \n\n".data = 2
    ∧ endsWithOneLF "[10:30:00] [INFO] \n\n".data = false :=
  ⟨by decide, by decide, by decide, by decide⟩

/-- C2 (amended: "exactly one" weakened to what the code guarantees): for
every record and config, the bytes returned by `Format` end with a line-feed
byte (the final byte is LF) and contain at least one occurrence of the
message text (trimmed when trimming is enabled, verbatim otherwise). The
occurrence appended by `Format` is unique in the output only when the message
text does not also occur elsewhere, and the trailing LF is the only trailing
LF only when the message segment does not itself end in LF. -/
theorem c2_terminator_amended (f : Formatter) (e : Entry) (out : String)
    (err : Option String) (h : f.Format e = some (out, err)) :
    out.data.getLast? = some '\n' ∧ 0 < occs (f.messageSegment e).data out.data := by
  rw [format_eq f e, Option.some.injEq, Prod.mk.injEq] at h
  obtain ⟨h1, -⟩ := h
  subst h1
  constructor
  · rw [String.data_append]
    exact List.getLast?_concat _
  · exact occs_pos_of_split _ _ (f.headStr e).data
      ((Formatter.writeCaller e).data ++ "\n".data) (by simp)

/-- C2 witness: the amended theorem applied to the spec's Example 1 record. -/
theorem c2_terminator_witness :
    ("[10:30:00] [INFO] starting up\n" : String).data.getLast? = some '\n'
    ∧ 0 < occs (plainCfg.messageSegment plainEntry).data
        ("[10:30:00] [INFO] starting up\n" : String).data :=
  c2_terminator_amended plainCfg plainEntry "[10:30:00] [INFO] starting up\n" none (by decide)

/-- C3: for every level whose uppercased name has at least 4 characters, the
`level[:4]` slice is in bounds (`sliceTo4` succeeds) and `Format` succeeds
and emits ` [<LEVEL4>]` with the first four characters of the uppercased
name; on the seven named levels these tags are exactly INFO, WARN, ERRO,
FATA, PANI, DEBU, TRAC. -/
theorem c3_level_truncation (f : Formatter) (e : Entry)
    (h : 4 ≤ (goToUpper (levelString e.level)).data.length) :
    Formatter.sliceTo4 (goToUpper (levelString e.level)) = some (level4 e.level)
    ∧ (∃ out, f.Format e = some (out, none)
        ∧ 0 < occs (" [" ++ level4 e.level ++ "]").data out.data)
    ∧ (List.range 7).map level4 = ["PANI", "FATA", "ERRO", "WARN", "INFO", "DEBU", "TRAC"] := by
  refine ⟨sliceTo4_levelString _, ⟨_, format_eq f e, ?_⟩, by decide⟩
  refine occs_pos_of_split _ _
    (("[" ++ e.time.format f.resolveTimestampFormat ++ "]"
      ++ (if !f.noColors then ansiEscape (getColorByLevel e.level) else "")).data)
    ((" " ++ (match f.fieldsOrder with
        | none => f.writeFields e
        | some _ => f.writeOrderedFields e)
      ++ (if !f.noColors then ansiEscape colorNone else "")
      ++ f.messageSegment e ++ Formatter.writeCaller e ++ "\n").data) ?_
  rw [Formatter.headStr]
  simp

/-- C3 witness: the truncation hypothesis and conclusion at the Info level. -/
theorem c3_level_truncation_witness :
    4 ≤ (goToUpper (levelString plainEntry.level)).data.length
    ∧ Formatter.sliceTo4 (goToUpper (levelString plainEntry.level))
        = some (level4 plainEntry.level) :=
  ⟨by decide, (c3_level_truncation plainCfg plainEntry (by decide)).1⟩

/-- C4: the message segment written by `Format` is the whitespace-trimmed
message when `disableTrimMessages` is false and the verbatim message when it
is true, and `Format`'s output contains that segment between the head and the
caller/newline suffix. -/
theorem c4_message_trimming (f : Formatter) (e : Entry) :
    (f.disableTrimMessages = false → f.messageSegment e = trimSpace e.message)
    ∧ (f.disableTrimMessages = true → f.messageSegment e = e.message)
    ∧ ∃ head, f.Format e =
        some (head ++ f.messageSegment e ++ Formatter.writeCaller e ++ "\n", none) := by
  refine ⟨fun h => ?_, fun h => ?_, ⟨_, format_eq f e⟩⟩
  · simp [Formatter.messageSegment, h]
  · simp [Formatter.messageSegment, h]

/-- C4 witness: message `" hello "` yields segment `"hello"` with trimming
enabled and `" hello "` verbatim with trimming disabled. -/
theorem c4_message_trimming_witness :
    plainCfg.messageSegment helloEntry = "hello"
    ∧ noTrimCfg.messageSegment helloEntry = " hello " := by
  constructor
  · rw [(c4_message_trimming plainCfg helloEntry).1 rfl]
    decide
  · rw [(c4_message_trimming noTrimCfg helloEntry).2.1 rfl]
    rfl

theorem escFree_append {s t : String} (hs : escFree s) (ht : escFree t) :
    escFree (s ++ t) := by
  simp only [escFree, String.data_append, List.mem_append, not_or]
  exact ⟨hs, ht⟩

/-- Decimal digits are the only characters `Nat.digitChar` produces below
base 10. -/
theorem digitChar_isDigit {m : Nat} (h : m < 10) : (Nat.digitChar m).isDigit = true := by
  interval_cases m <;> decide

theorem toDigitsCore_isDigit (fuel : Nat) :
    ∀ (n : Nat) (ds : List Char), (∀ c ∈ ds, c.isDigit = true) →
      ∀ c ∈ Nat.toDigitsCore 10 fuel n ds, c.isDigit = true := by
  induction fuel with
  | zero =>
    intro n ds hds c hc
    exact hds c hc
  | succ fuel ih =>
    intro n ds hds c hc
    simp only [Nat.toDigitsCore] at hc
    by_cases h : n / 10 = 0
    · rw [if_pos h] at hc
      rcases List.mem_cons.mp hc with h1 | h1
      · subst h1
        exact digitChar_isDigit (Nat.mod_lt _ (by norm_num))
      · exact hds c h1
    · rw [if_neg h] at hc
      refine ih _ _ ?_ c hc
      intro c' hc'
      rcases List.mem_cons.mp hc' with h1 | h1
      · subst h1
        exact digitChar_isDigit (Nat.mod_lt _ (by norm_num))
      · exact hds c' h1

/-- The decimal rendering of a natural number is all digits. -/
theorem natRepr_isDigit (n : Nat) : ∀ c ∈ (Nat.repr n).data, c.isDigit = true :=
  fun c hc => toDigitsCore_isDigit (n + 1) n [] (by simp) c hc

theorem escFree_natRepr (n : Nat) : escFree (Nat.repr n) := fun h =>
  absurd (natRepr_isDigit n _ h) (by decide)

theorem escFree_intRepr (i : Int) : escFree (intRepr i) := by
  rw [intRepr]
  by_cases h : i < 0
  · rw [if_pos h]
    exact escFree_append (by decide) (escFree_natRepr _)
  · rw [if_neg h]
    exact escFree_natRepr _

theorem escFree_writeCaller (e : Entry)
    (hc : ∀ c ∈ e.caller, escFree c.file ∧ escFree c.function) :
    escFree (Formatter.writeCaller e) := by
  rw [Formatter.writeCaller]
  cases hcl : e.caller with
  | none => decide
  | some c =>
    obtain ⟨h1, h2⟩ := hc c (by rw [hcl]; rfl)
    exact escFree_append (escFree_append (escFree_append (escFree_append
      (escFree_append (escFree_append (by decide) h1) (by decide))
      (escFree_intRepr c.line)) (by decide)) h2) (by decide)

theorem escFree_levelString (n : Nat) : '\x1b' ∉ (goToUpper (levelString n)).data :=
  match n with
  | 0 => by decide
  | 1 => by decide
  | 2 => by decide
  | 3 => by decide
  | 4 => by decide
  | 5 => by decide
  | 6 => by decide
  | _ + 7 => by
    show '\x1b' ∉ (goToUpper "unknown").data
    decide

theorem escFree_level4 (n : Nat) : escFree (level4 n) :=
  fun h => escFree_levelString n ((List.take_sublist _ _).subset h)

theorem escFree_trimSpace {s : String} (h : escFree s) : escFree (trimSpace s) := by
  intro hm
  apply h
  rw [trimSpace] at hm
  have h1 := List.mem_reverse.mp hm
  have h2 := (List.dropWhile_sublist _).subset h1
  have h3 := List.mem_reverse.mp h2
  exact (List.dropWhile_sublist _).subset h3

theorem escFree_writeField (f : Formatter) (e : Entry) (field : String)
    (hd : ∀ kv ∈ e.data, escFree kv.1 ∧ escFree kv.2.fmtV)
    (hf : escFree field) :
    escFree (f.writeField e field) := by
  have hv : escFree (fmtValue (lookupF e.data field)) := by
    cases hl : lookupF e.data field with
    | none => exact (by decide : escFree "<nil>")
    | some v => exact (hd (field, v) (lookupF_mem hl)).2
  rw [Formatter.writeField]
  by_cases h : f.hideKeys
  · rw [if_pos h]
    exact escFree_append (escFree_append (escFree_append (by decide) hv) (by decide))
      (by decide)
  · rw [if_neg h]
    exact escFree_append (escFree_append (escFree_append (escFree_append
      (escFree_append (by decide) hf) (by decide)) hv) (by decide)) (by decide)

theorem escFree_renderFields (f : Formatter) (e : Entry)
    (hd : ∀ kv ∈ e.data, escFree kv.1 ∧ escFree kv.2.fmtV) :
    ∀ names, (∀ k ∈ names, escFree k) → escFree (f.renderFields e names) := by
  intro names
  induction names with
  | nil =>
    intro _
    exact (by decide : escFree "")
  | cons a rest ih =>
    intro hn
    rw [Formatter.renderFields]
    exact escFree_append (escFree_writeField f e a hd (hn a (by simp)))
      (ih (fun k hk => hn k (by simp [hk])))

/-- Every key of the record is ESC-free under the field hypotheses. -/
theorem escFree_of_mem_keys {e : Entry}
    (hd : ∀ kv ∈ e.data, escFree kv.1 ∧ escFree kv.2.fmtV)
    {k : String} (hk : k ∈ e.data.map Prod.fst) : escFree k := by
  obtain ⟨kv, hkv, rfl⟩ := List.mem_map.mp hk
  exact (hd kv hkv).1

theorem escFree_writeFields (f : Formatter) (e : Entry)
    (hd : ∀ kv ∈ e.data, escFree kv.1 ∧ escFree kv.2.fmtV) :
    escFree (f.writeFields e) := by
  rw [Formatter.writeFields]
  by_cases h : e.data.length ≠ 0
  · rw [if_pos h]
    refine escFree_renderFields f e hd _ (fun k hk => ?_)
    exact escFree_of_mem_keys hd ((sortStrings_perm _).mem_iff.mp hk)
  · rw [if_neg h]
    exact (by decide : escFree "")

theorem escFree_writeOrderedFields (f : Formatter) (e : Entry) (ord : List String)
    (ho : f.fieldsOrder = some ord)
    (hd : ∀ kv ∈ e.data, escFree kv.1 ∧ escFree kv.2.fmtV) :
    escFree (f.writeOrderedFields e) := by
  rw [writeOrderedFields_eq f e ord ho]
  refine escFree_append ?_ ?_
  · refine escFree_renderFields f e hd _ (fun k hk => ?_)
    obtain ⟨-, hk2⟩ := List.mem_filter.mp hk
    exact escFree_of_mem_keys hd ((lookupF_isSome_iff e.data k).1 hk2)
  · split
    · refine escFree_renderFields f e hd _ (fun k hk => ?_)
      have hk1 := (sortStrings_perm _).mem_iff.mp hk
      exact escFree_of_mem_keys hd (List.mem_filter.mp hk1).1
    · exact (by decide : escFree "")

/-- C5 counterexample: the claim quantifies over every record, but a record
whose message itself contains the ESC byte defeats it even with
`noColors = true`: the formatter copies the message into the output. -/
theorem c5_counterexample :
    plainCfg.noColors = true
    ∧ plainCfg.Format escMsgEntry = some ("[10:30:00] [INFO] boom\x1b[31m\n", none)
    ∧ '\x1b' ∈ ("[10:30:00] [INFO] boom\x1b[31m\n" : String).data :=
  ⟨rfl, by decide, by decide⟩

/-- C5 (amended: restricted to records whose own text carries no ESC byte —
the formatter itself introduces none): when `noColors` is true and the
rendered timestamp, the message, every field name and value, and the caller
file/function strings are ESC-free, the output of `Format` contains no ESC
byte. -/
theorem c5_no_colors_amended (f : Formatter) (e : Entry)
    (hnc : f.noColors = true)
    (hts : escFree (e.time.format f.resolveTimestampFormat))
    (hmsg : escFree e.message)
    (hd : ∀ kv ∈ e.data, escFree kv.1 ∧ escFree kv.2.fmtV)
    (hc : ∀ c ∈ e.caller, escFree c.file ∧ escFree c.function) :
    ∃ out, f.Format e = some (out, none) ∧ escFree out := by
  refine ⟨_, format_eq f e, ?_⟩
  have hhead : escFree (f.headStr e) := by
    rw [Formatter.headStr, hnc]
    simp only [Bool.not_true, Bool.false_eq_true, if_false]
    have hfields : escFree (match f.fieldsOrder with
        | none => f.writeFields e
        | some _ => f.writeOrderedFields e) := by
      cases ho : f.fieldsOrder with
      | none => exact escFree_writeFields f e hd
      | some ord => exact escFree_writeOrderedFields f e ord ho hd
    repeat' apply escFree_append
    all_goals first
      | exact hts
      | exact escFree_level4 _
      | exact hfields
      | decide
  have hmsgSeg : escFree (f.messageSegment e) := by
    rw [Formatter.messageSegment]
    by_cases h : f.disableTrimMessages
    · rw [if_pos h]; exact hmsg
    · rw [if_neg h]; exact escFree_trimSpace hmsg
  exact escFree_append (escFree_append (escFree_append hhead hmsgSeg)
    (escFree_writeCaller e hc)) (by decide)

/-- C5 witness: the amended theorem at the spec's Example 1 record. -/
theorem c5_no_colors_witness :
    ∃ out, plainCfg.Format plainEntry = some (out, none) ∧ escFree out :=
  c5_no_colors_amended plainCfg plainEntry rfl (by decide) (by decide)
    (by simp [plainEntry]) (by simp [plainEntry])

/-- `lookupF` is stable under permutation of a map with unique keys. -/
theorem lookupF_perm (k : String) {d₁ d₂ : List (String × GoValue)} (h : d₁.Perm d₂) :
    (d₁.map Prod.fst).Nodup → lookupF d₁ k = lookupF d₂ k := by
  induction h with
  | nil => intro _; rfl
  | cons p t ih =>
    intro hnd
    obtain ⟨a, v⟩ := p
    rw [lookupF, lookupF]
    by_cases hk : k = a
    · rw [if_pos hk, if_pos hk]
    · rw [if_neg hk, if_neg hk]
      refine ih ?_
      simp only [List.map_cons, List.nodup_cons] at hnd
      exact hnd.2
  | swap x y l =>
    intro hnd
    obtain ⟨a, v⟩ := x
    obtain ⟨b, w⟩ := y
    simp only [List.map_cons, List.nodup_cons, List.mem_cons] at hnd
    rw [lookupF, lookupF, lookupF, lookupF]
    by_cases hb : k = b <;> by_cases ha : k = a <;> simp [ha, hb]
    all_goals first
      | exact fun hab => absurd (Or.inl hab.symm) hnd.1
      | rw [if_neg (fun hba => hnd.1 (Or.inl hba))]
  | trans h₁ h₂ ih₁ ih₂ =>
    intro hnd
    rw [ih₁ hnd, ih₂ (((h₁.map Prod.fst).nodup_iff).mp hnd)]

/-- Field rendering depends only on `hideKeys` and the key-to-value lookup. -/
theorem renderFields_congr (f₁ f₂ : Formatter) (e₁ e₂ : Entry)
    (hh : f₁.hideKeys = f₂.hideKeys)
    (hL : ∀ k, lookupF e₁.data k = lookupF e₂.data k) :
    ∀ names : List String, f₁.renderFields e₁ names = f₂.renderFields e₂ names := by
  intro names
  induction names with
  | nil => rfl
  | cons a rest ih =>
    rw [Formatter.renderFields, Formatter.renderFields, ih]
    rw [Formatter.writeField, Formatter.writeField, hL a, hh]

/-- C6: level-to-color resolution is a pure total mapping (Trace/Debug ↦ 37,
Warn ↦ 33, Error/Fatal/Panic ↦ 31, Info and every unrecognized level ↦ 36),
and with colors enabled `Format` emits the raw escape `ESC[<n>m` for the
resolved code right after the timestamp bracket and the reset escape
`ESC[0m` after the fields, before the message. -/
theorem c6_color_mapping (f : Formatter) (e : Entry) :
    getColorByLevel traceLevel = 37 ∧ getColorByLevel debugLevel = 37
    ∧ getColorByLevel warnLevel = 33
    ∧ getColorByLevel errorLevel = 31 ∧ getColorByLevel fatalLevel = 31
    ∧ getColorByLevel panicLevel = 31
    ∧ getColorByLevel infoLevel = 36
    ∧ (∀ lvl, 7 ≤ lvl → getColorByLevel lvl = 36)
    ∧ ansiEscape colorNone = "\x1b[0m"
    ∧ (f.noColors = false →
        ∃ out, f.Format e = some (out, none) ∧
          out = "[" ++ e.time.format f.resolveTimestampFormat ++ "]"
            ++ ansiEscape (getColorByLevel e.level)
            ++ (" [" ++ level4 e.level ++ "]" ++ " "
            ++ (match f.fieldsOrder with
                | none => f.writeFields e
                | some _ => f.writeOrderedFields e)
            ++ ansiEscape colorNone
            ++ f.messageSegment e ++ Formatter.writeCaller e ++ "\n")) := by
  refine ⟨rfl, rfl, rfl, rfl, rfl, rfl, rfl, ?_, by decide, fun h => ?_⟩
  · intro lvl hl
    rw [getColorByLevel,
      if_neg (by simp only [debugLevel, traceLevel]; omega),
      if_neg (by simp only [warnLevel]; omega),
      if_neg (by simp only [errorLevel, fatalLevel, panicLevel]; omega)]
    rfl
  · refine ⟨_, format_eq f e, ?_⟩
    rw [Formatter.headStr, h]
    simp [String.append_assoc]

/-- C6 witness: the mapping at an unrecognized level value and the full
colored output on the spec's Example 1 record. -/
theorem c6_color_mapping_witness :
    getColorByLevel 9 = 36
    ∧ colorCfg.Format plainEntry
        = some ("[10:30:00]\x1b[36m [INFO] \x1b[0mstarting up\n", none) := by
  refine ⟨(c6_color_mapping colorCfg plainEntry).2.2.2.2.2.2.2.1 9 (by norm_num), ?_⟩
  obtain ⟨out, hout, heq⟩ :=
    (c6_color_mapping colorCfg plainEntry).2.2.2.2.2.2.2.2.2 rfl
  rw [hout, heq]
  decide

/-- C7: each field is rendered as `[<value>]` when `hideKeys` is set and as
`[<name>:<value>]` otherwise, with `<value>` the value's default textual
representation, and every rendered field is followed by exactly one space;
on the spec's Example 2/3 inputs the field segments are `[id:42] [user:alice] `
and `[42] [alice] `. -/
theorem c7_field_rendering (f : Formatter) (e : Entry) (field : String) (v : GoValue)
    (hv : lookupF e.data field = some v) :
    f.writeField e field =
      (if f.hideKeys then "[" ++ v.fmtV ++ "]"
       else "[" ++ field ++ ":" ++ v.fmtV ++ "]") ++ " "
    ∧ orderedCfg.writeOrderedFields twoFieldEntry = "[id:42] [user:alice] "
    ∧ hideKeysCfg.writeOrderedFields twoFieldEntry = "[42] [alice] " := by
  refine ⟨?_, by decide, by decide⟩
  rw [Formatter.writeField, hv]
  rfl

/-- C7 witness: the per-field statement at the `id` field of Example 2. -/
theorem c7_field_rendering_witness :
    orderedCfg.writeField twoFieldEntry "id" = "[id:42] " := by
  rw [(c7_field_rendering orderedCfg twoFieldEntry "id" ⟨"42"⟩ (by decide)).1]
  decide

/-- C8: with `fieldOrder` unset, the field segment is the record's keys
sorted lexicographically and rendered in that order, and two records holding
the same field set in different insertion orders render identically. -/
theorem c8_alphabetical_fallback (f : Formatter) (e : Entry)
    (d₂ : List (String × GoValue))
    (ho : f.fieldsOrder = none)
    (hperm : e.data.Perm d₂)
    (hkeys : (e.data.map Prod.fst).Nodup) :
    f.writeFields e = f.renderFields e (sortStrings (e.data.map Prod.fst))
    ∧ f.writeFields e = f.writeFields { e with data := d₂ } := by
  have hkperm : (e.data.map Prod.fst).Perm (d₂.map Prod.fst) := hperm.map _
  have hsorteq : sortStrings (e.data.map Prod.fst) = sortStrings (d₂.map Prod.fst) := by
    refine List.eq_of_perm_of_sorted ?_ (sortStrings_sorted _) (sortStrings_sorted _)
    exact (sortStrings_perm _).trans (hkperm.trans (sortStrings_perm _).symm)
  have hlookup : ∀ k, lookupF e.data k = lookupF d₂ k :=
    fun k => lookupF_perm k hperm hkeys
  constructor
  · rw [Formatter.writeFields]
    by_cases h : e.data.length ≠ 0
    · rw [if_pos h]
    · rw [if_neg h]
      have hd : e.data = [] := List.length_eq_zero.mp (by omega)
      rw [hd]
      rfl
  · rw [Formatter.writeFields, Formatter.writeFields]
    by_cases h : e.data.length ≠ 0
    · rw [if_pos h, if_pos (show ({ e with data := d₂ } : Entry).data.length ≠ 0 by
        rw [← hperm.length_eq]; exact h)]
      rw [show ({ e with data := d₂ } : Entry).data = d₂ from rfl, ← hsorteq]
      exact renderFields_congr f f e { e with data := d₂ } rfl hlookup _
    · rw [if_neg h, if_neg (show ¬({ e with data := d₂ } : Entry).data.length ≠ 0 by
        rw [show ({ e with data := d₂ } : Entry).data = d₂ from rfl, ← hperm.length_eq]
        exact h)]

/-- C8 witness: the records `{user: alice, id: 42}` inserted in both orders
render the identical field segment `[id:42] [user:alice] `. -/
theorem c8_alphabetical_fallback_witness :
    plainCfg.writeFields twoFieldEntry = plainCfg.writeFields twoFieldEntryRev
    ∧ plainCfg.writeFields twoFieldEntry = "[id:42] [user:alice] " := by
  refine ⟨?_, by decide⟩
  exact (c8_alphabetical_fallback plainCfg twoFieldEntry
    [("id", ⟨"42"⟩), ("user", ⟨"alice"⟩)] rfl (by decide) (by decide)).2

/-- C10: a config whose `FieldsOrder` is the empty non-nil slice produces
exactly the same output as one whose `FieldsOrder` is nil: the ordered-fields
path with an empty order list reduces to the alphabetical-fallback path. -/
theorem c10_empty_order_equiv (f : Formatter) (e : Entry) :
    Formatter.Format { f with fieldsOrder := some [] } e
      = Formatter.Format { f with fieldsOrder := none } e := by
  have hfields : ({ f with fieldsOrder := some [] } : Formatter).writeOrderedFields e
      = ({ f with fieldsOrder := none } : Formatter).writeFields e := by
    rw [writeOrderedFields_eq ({ f with fieldsOrder := some [] } : Formatter) e [] rfl,
      Formatter.writeFields]
    simp only [List.filter_nil, List.countP_nil, Nat.cast_zero, sub_zero,
      Formatter.renderFields, String.empty_append]
    by_cases h : e.data.length = 0
    · rw [if_neg (by omega), if_neg (by omega)]
    · rw [if_pos (by omega), if_pos (by omega)]
      have hfil : (e.data.map Prod.fst).filter (fun field => !List.contains [] field)
          = e.data.map Prod.fst := by
        simp
      rw [hfil]
      exact renderFields_congr { f with fieldsOrder := some [] }
        { f with fieldsOrder := none } e e rfl (fun _ => rfl) _
  rw [format_eq, format_eq]
  simp only [Formatter.headStr, Formatter.messageSegment, Formatter.resolveTimestampFormat]
  rw [hfields]

/-- C9: `Format` always succeeds: for every config and record it returns the
rendered bytes paired with a nil error (the source's only return is
`return b.Bytes(), nil`, and the `level[:4]` slice is always in bounds
because every level name, including `"unknown"`, has at least 4 characters). -/
theorem c9_always_succeeds (f : Formatter) (e : Entry) :
    ∃ out, f.Format e = some (out, none) :=
  ⟨_, format_eq f e⟩

end LogrusFmt
